import Mathlib

/-!
Verification development for the interactive Risk-map prototype
(`src/main.rs`). The core consists of `Territory::is_point_inside`
(even-odd ray-casting point-in-polygon test) and
`GameState::handle_input` (single-selection click resolution).

Modelling choices:
* Coordinates are rationals (`ℚ`): exact arithmetic, as the algebraic
  claims about the hit test are stated "under exact arithmetic"; the
  concrete test points of the spec compute exactly in any case.
* The Rust loop in `is_point_inside` walks `i` over `0..n` while `j`
  holds the previous index, starting at `n - 1`. That enumerates the
  pairs `(v₀, v_{n-1}), (v₁, v₀), …, (v_{n-1}, v_{n-2})`, which is
  exactly `vs.zip (last :: vs)` (zip truncates the longer list); the
  body is the `foldl` of the toggle step over those pairs.
* `handle_input` fires only when the mouse button was pressed; we model
  one click-processing call, the click point passed explicitly.
* `self.territories[selected].selected = false` is an indexed field
  assignment; `setSelectedAt` models it by structural recursion (a
  no-op out of range — the Rust code can only reach it with the
  in-range index it stored earlier).
* File loading (`load_territories_from_json`) is external I/O; the rest
  of `GameState::new` is modelled as a function of the loaded records.
-/

/-- Two-dimensional point, mirroring macroquad's `Vec2` as used by the source
(coordinates modelled exactly, see the header). -/
structure Vec2 where
  x : ℚ
  y : ℚ
deriving DecidableEq

/-- Record shape deserialized from JSON (`struct TerritoryData`). -/
structure TerritoryData where
  name : String
  vertices : List (ℚ × ℚ)
  owner : Nat
  armies : Int
  selected : Bool
deriving DecidableEq

/-- Mirrors `struct Territory` of the source. -/
structure Territory where
  name : String
  vertices : List Vec2
  owner : Nat
  armies : Int
  selected : Bool
deriving DecidableEq

/-- Mirrors `TerritoryData::to_territory`: copies every field, turning
each `[x, y]` pair into a `Vec2` (including the `selected` flag). -/
def TerritoryData.to_territory (d : TerritoryData) : Territory :=
  { name := d.name
    vertices := d.vertices.map (fun v => ⟨v.1, v.2⟩)
    owner := d.owner
    armies := d.armies
    selected := d.selected }

/-- The y-straddle half of the crossing test of `is_point_inside`:
`(vi.y > point.y) != (vj.y > point.y)` — exactly one endpoint strictly
above the ray. -/
def yStraddles (point vi vj : Vec2) : Bool :=
  decide (vi.y > point.y) != decide (vj.y > point.y)

/-- The full edge-crossing condition of the source:
`(vi.y > point.y) != (vj.y > point.y) && point.x < (vj.x - vi.x) * (point.y - vi.y) / (vj.y - vi.y) + vi.x`. -/
def crossesRay (point vi vj : Vec2) : Bool :=
  yStraddles point vi vj &&
    decide (point.x < (vj.x - vi.x) * (point.y - vi.y) / (vj.y - vi.y) + vi.x)

/-- The `(vi, vj)` pairs visited by the loop of `is_point_inside`:
`vi` runs over the vertices, `vj` is the previous vertex, starting with
the last one (`j = len - 1`, then `j = i`). -/
def edgePairs (vs : List Vec2) : List (Vec2 × Vec2) :=
  vs.zip (vs.getLastD ⟨0, 0⟩ :: vs)

/-- Mirrors `Territory::is_point_inside`: fold the toggle body over the
loop's `(vi, vj)` pairs, starting from `is_inside = false`. -/
def Territory.is_point_inside (t : Territory) (point : Vec2) : Bool :=
  (edgePairs t.vertices).foldl
    (fun is_inside e => if crossesRay point e.1 e.2 then !is_inside else is_inside)
    false

/-- Mirrors `struct GameState`. -/
structure GameState where
  territories : List Territory
  selected_territory : Option Nat
deriving DecidableEq

/-- Mirrors `GameState::new`, with the loaded records passed in (the
JSON file read is external I/O): wrap every record via `to_territory`
and start with no selection. -/
def GameState.new (data : List TerritoryData) : GameState :=
  { territories := data.map (fun d => d.to_territory)
    selected_territory := none }

/-- The first loop of `handle_input`: enumerate the territories and
remember the index of every hit, later hits overwriting earlier ones. -/
def newlySelected (ts : List Territory) (point : Vec2) : Option Nat :=
  ts.enum.foldl
    (fun acc it => if it.2.is_point_inside point then some it.1 else acc)
    none

/-- Model of `self.territories[i].selected = b`: replace the flag of the
element at index `i` (no-op when `i` is out of range). -/
def setSelectedAt : List Territory → Nat → Bool → List Territory
  | [], _, _ => []
  | t :: ts, 0, b => { t with selected := b } :: ts
  | t :: ts, n + 1, b => t :: setSelectedAt ts n b

/-- Mirrors the click-pressed branch of `GameState::handle_input`:
find the last containing territory, clear the previously selected
territory's flag (if any), then set the new one's flag and record its
index. When nothing was hit, `selected_territory` is left as it was —
the source has no `else` branch resetting it. -/
def handle_input (s : GameState) (point : Vec2) : GameState :=
  let newly := newlySelected s.territories point
  let ts1 :=
    match s.selected_territory with
    | some selected => setSelectedAt s.territories selected false
    | none => s.territories
  match newly with
  | some i =>
      { territories := setSelectedAt ts1 i true
        selected_territory := some i }
  | none =>
      { territories := ts1
        selected_territory := s.selected_territory }

/-- The selected flag of the territory at index `k` (false out of
range). -/
def flagAtL (ts : List Territory) (k : Nat) : Bool :=
  match ts.get? k with
  | some t => t.selected
  | none => false

/-- The flag of the territory at index `k` of a `GameState`. -/
def flagAt (s : GameState) (k : Nat) : Bool :=
  flagAtL s.territories k

/-- The spec's synchronization invariant, decidably: `selected_index`
is either none and no flag is set, or a valid in-range index whose
territory has `selected = true` while every other flag is false. -/
def syncInvB (s : GameState) : Bool :=
  match s.selected_territory with
  | none => s.territories.all (fun t => !t.selected)
  | some i =>
      decide (i < s.territories.length) &&
        (List.range s.territories.length).all
          (fun k => flagAt s k == decide (k = i))

/-- The invariant the code actually preserves: `selected_territory` is
none or in range, and every territory whose flag is set is the one
`selected_territory` references (the index may, however, reference a
territory whose flag is false). -/
def weakInvB (s : GameState) : Bool :=
  (match s.selected_territory with
   | none => true
   | some i => decide (i < s.territories.length)) &&
    (List.range s.territories.length).all
      (fun k => !(flagAt s k) || (s.selected_territory == some k))

/-- The edge-crossing condition exactly as the spec words it: exactly
one of `vi.y`, `vj.y` strictly greater than `point.y`, and the ray
crossing abscissa `vj.x + (point.y - vj.y) / (vi.y - vj.y) * (vi.x - vj.x)`
strictly greater than `point.x`. -/
def specCrossesRay (point vi vj : Vec2) : Bool :=
  (decide (vi.y > point.y) != decide (vj.y > point.y)) &&
    decide (vj.x + (point.y - vj.y) / (vi.y - vj.y) * (vi.x - vj.x) > point.x)

/-- The even-odd reference predicate written from the spec's words
(same edge enumeration — `vj` the previous vertex, wrapping from the
last vertex to index 0 — each qualifying edge toggling an inside
boolean that starts at `false`). -/
def containsSpec (vs : List Vec2) (point : Vec2) : Bool :=
  (edgePairs vs).foldl
    (fun is_inside e => if specCrossesRay point e.1 e.2 then !is_inside else is_inside)
    false

/-- Adjacent pairs `(vᵢ, vᵢ₊₁)` of a list; helper for relating the edge
pairs of a vertex list and of its reversal. -/
def adjPairs {α : Type} (l : List α) : List (α × α) :=
  l.zip l.tail

/-- The unit square-like test polygon of the spec's test list. -/
def squareVertices : List Vec2 :=
  [⟨0, 0⟩, ⟨10, 0⟩, ⟨10, 10⟩, ⟨0, 10⟩]

/-- A concrete territory over `squareVertices`. -/
def squareTerritory (sel : Bool) : Territory :=
  { name := "Square", vertices := squareVertices, owner := 0, armies := 5, selected := sel }

/-- A second square, shifted right by 5: it overlaps `squareVertices`
(both contain `(7, 5)`). -/
def squareTerritoryB (sel : Bool) : Territory :=
  { name := "SquareB"
    vertices := [⟨5, 0⟩, ⟨15, 0⟩, ⟨15, 10⟩, ⟨5, 10⟩]
    owner := 1
    armies := 3
    selected := sel }

/-- Concrete state: the square territory selected, flags synchronized. -/
def sSel : GameState :=
  { territories := [squareTerritory true], selected_territory := some 0 }

/-- Concrete state with two overlapping unselected territories. -/
def sTwo : GameState :=
  { territories := [squareTerritory false, squareTerritoryB false]
    selected_territory := none }

/-- Loaded records containing a record whose `selected` flag is already
true — input exhibiting the construction desynchronization. -/
def dataBad : List TerritoryData :=
  [{ name := "Bad"
     vertices := [(0, 0), (10, 0), (10, 10)]
     owner := 0
     armies := 1
     selected := true }]

/-! ## Basic facts about the crossing test -/

/-- C9: in `is_point_inside`, the division `(point.y - vi.y) / (vj.y - vi.y)`
sits behind the short-circuited conjunct `(vi.y > point.y) != (vj.y > point.y)`;
whenever that straddle condition holds the two endpoint ordinates differ,
so the divisor `vj.y - vi.y` is nonzero and no division by zero is ever
performed. -/
theorem straddle_implies_nonzero_divisor (point vi vj : Vec2)
    (h : yStraddles point vi vj = true) : vi.y ≠ vj.y ∧ vj.y - vi.y ≠ 0 := by
  have hne : vi.y ≠ vj.y := by
    intro he
    rw [yStraddles, he, bne_self_eq_false] at h
    exact Bool.false_ne_true h
  exact ⟨hne, sub_ne_zero_of_ne (Ne.symm hne)⟩

/-- Witness for `straddle_implies_nonzero_divisor` at a concrete edge
straddling the ray from the origin. -/
theorem straddle_implies_nonzero_divisor_witness :
    (⟨0, 1⟩ : Vec2).y ≠ (⟨0, 0⟩ : Vec2).y ∧ (⟨0, 0⟩ : Vec2).y - (⟨0, 1⟩ : Vec2).y ≠ 0 :=
  straddle_implies_nonzero_divisor ⟨0, 0⟩ ⟨0, 1⟩ ⟨0, 0⟩ (by decide)

/-- The interpolated crossing abscissa is symmetric in the edge's two
endpoints, provided their ordinates differ. -/
theorem crossFormula_swap (p a b : Vec2) (h : a.y ≠ b.y) :
    (b.x - a.x) * (p.y - a.y) / (b.y - a.y) + a.x
      = (a.x - b.x) * (p.y - b.y) / (a.y - b.y) + b.x := by
  have hd1 : b.y - a.y ≠ 0 := sub_ne_zero_of_ne (Ne.symm h)
  have hd2 : a.y - b.y ≠ 0 := sub_ne_zero_of_ne h
  field_simp
  ring

/-- The source's crossing condition coincides with the spec's wording of
it, edge by edge: the straddle tests are identical, and under a straddle
the two linear-interpolation abscissas agree exactly. -/
theorem crossesRay_eq_spec (p vi vj : Vec2) :
    crossesRay p vi vj = specCrossesRay p vi vj := by
  rw [crossesRay, specCrossesRay, yStraddles]
  by_cases h : vi.y = vj.y
  · rw [h, bne_self_eq_false, Bool.false_and, Bool.false_and]
  · have hd1 : vj.y - vi.y ≠ 0 := sub_ne_zero_of_ne (Ne.symm h)
    have hd2 : vi.y - vj.y ≠ 0 := sub_ne_zero_of_ne h
    have hx : (vj.x - vi.x) * (p.y - vi.y) / (vj.y - vi.y) + vi.x
        = vj.x + (p.y - vj.y) / (vi.y - vj.y) * (vi.x - vj.x) := by
      field_simp
      ring
    simp only [gt_iff_lt, hx]

/-- C4: for any polygon (the claim assumes at least three vertices) and
any point, the source's `is_point_inside` computes exactly the spec's
even-odd ray-casting reference. -/
theorem is_point_inside_eq_containsSpec (t : Territory) (p : Vec2)
    (h : 3 ≤ t.vertices.length) : t.is_point_inside p = containsSpec t.vertices p := by
  rw [Territory.is_point_inside, containsSpec]
  congr 1
  funext is_inside e
  rw [crossesRay_eq_spec]

/-- Witness for `is_point_inside_eq_containsSpec` on the spec's square. -/
theorem is_point_inside_eq_containsSpec_witness :
    3 ≤ (squareTerritory false).vertices.length ∧
      (squareTerritory false).is_point_inside ⟨5, 5⟩
        = containsSpec (squareTerritory false).vertices ⟨5, 5⟩ :=
  ⟨by decide, is_point_inside_eq_containsSpec (squareTerritory false) ⟨5, 5⟩ (by decide)⟩

/-- C7: the hit test is a pure function of the vertex list and the
point — its result is unchanged by any difference in name, owner,
armies or the selected flag, so two calls with the same vertices and
point always return the same result. -/
theorem is_point_inside_pure (t₁ t₂ : Territory) (p : Vec2)
    (h : t₁.vertices = t₂.vertices) : t₁.is_point_inside p = t₂.is_point_inside p := by
  rw [Territory.is_point_inside, Territory.is_point_inside, h]

/-- Witness for `is_point_inside_pure`: same square vertices, every
other field different. -/
theorem is_point_inside_pure_witness :
    (squareTerritory true).is_point_inside ⟨5, 5⟩
      = (Territory.mk "Other" squareVertices 7 0 false).is_point_inside ⟨5, 5⟩ :=
  is_point_inside_pure (squareTerritory true) (Territory.mk "Other" squareVertices 7 0 false)
    ⟨5, 5⟩ rfl

/-- C8: on the spec's square `[(0,0),(10,0),(10,10),(0,10)]` the point
`(5,5)` tests inside and `(15,5)` tests outside. -/
theorem square_containment :
    (squareTerritory false).is_point_inside ⟨5, 5⟩ = true ∧
      (squareTerritory false).is_point_inside ⟨15, 5⟩ = false := by
  constructor <;>
    norm_num [Territory.is_point_inside, squareTerritory, squareVertices, edgePairs,
      crossesRay, yStraddles]

/-! ## Indexed flag assignment -/

/-- Assigning a flag preserves the number of territories. -/
theorem length_setSelectedAt (ts : List Territory) (i : Nat) (b : Bool) :
    (setSelectedAt ts i b).length = ts.length := by
  induction ts generalizing i with
  | nil => rfl
  | cons t ts ih =>
      cases i with
      | zero => rfl
      | succ n => simpa [setSelectedAt] using ih n

/-- Assigning a flag at `i` leaves every other index untouched. -/
theorem get?_setSelectedAt_ne (ts : List Territory) (i k : Nat) (b : Bool)
    (h : k ≠ i) : (setSelectedAt ts i b).get? k = ts.get? k := by
  induction ts generalizing i k with
  | nil => rfl
  | cons t ts ih =>
      cases i with
      | zero =>
          cases k with
          | zero => exact absurd rfl h
          | succ m => rfl
      | succ n =>
          cases k with
          | zero => rfl
          | succ m => simpa [setSelectedAt] using ih n m (fun he => h (by rw [he]))

/-- Assigning a flag at `i` replaces exactly the flag of the element
there (when present). -/
theorem get?_setSelectedAt_self (ts : List Territory) (i : Nat) (b : Bool) :
    (setSelectedAt ts i b).get? i = (ts.get? i).map (fun t => { t with selected := b }) := by
  induction ts generalizing i with
  | nil => rfl
  | cons t ts ih =>
      cases i with
      | zero => rfl
      | succ n => simpa [setSelectedAt] using ih n

/-- The flag at the assigned index is the assigned value whenever the
index is in range. -/
theorem flagAtL_setSelectedAt_self (ts : List Territory) (i : Nat) (b : Bool)
    (h : i < ts.length) : flagAtL (setSelectedAt ts i b) i = b := by
  rw [flagAtL, get?_setSelectedAt_self]
  rcases List.get?_eq_get h with he
  rw [he]
  rfl

/-- Clearing the flag at `i` makes the flag read false there, in or out
of range. -/
theorem flagAtL_setSelectedAt_false (ts : List Territory) (i : Nat) :
    flagAtL (setSelectedAt ts i false) i = false := by
  rw [flagAtL, get?_setSelectedAt_self]
  cases ts.get? i with
  | none => rfl
  | some t => rfl

/-- The flag at any other index is unchanged by an assignment. -/
theorem flagAtL_setSelectedAt_ne (ts : List Territory) (i k : Nat) (b : Bool)
    (h : k ≠ i) : flagAtL (setSelectedAt ts i b) k = flagAtL ts k := by
  rw [flagAtL, flagAtL, get?_setSelectedAt_ne ts i k b h]

/-- Two successive assignments at the same index collapse to the last. -/
theorem setSelectedAt_setSelectedAt (ts : List Territory) (i : Nat) (b₁ b₂ : Bool) :
    setSelectedAt (setSelectedAt ts i b₁) i b₂ = setSelectedAt ts i b₂ := by
  induction ts generalizing i with
  | nil => rfl
  | cons t ts ih =>
      cases i with
      | zero => rfl
      | succ n => simp [setSelectedAt, ih n]

/-- Assigning a flag its current value changes nothing. -/
theorem setSelectedAt_eq_self (ts : List Territory) (i : Nat) (t : Territory) (b : Bool)
    (hget : ts.get? i = some t) (hb : t.selected = b) : setSelectedAt ts i b = ts := by
  induction ts generalizing i with
  | nil => exact absurd hget (by simp)
  | cons hd tl ih =>
      cases i with
      | zero =>
          obtain rfl : hd = t := by simpa using hget
          rw [setSelectedAt, ← hb]
      | succ n =>
          rw [setSelectedAt, ih n (by simpa using hget)]

/-- A set flag can only be read inside the list. -/
theorem flagAtL_true_lt (ts : List Territory) (k : Nat)
    (h : flagAtL ts k = true) : k < ts.length := by
  by_contra hk
  rw [flagAtL, List.get?_eq_none.2 (Nat.le_of_not_lt hk)] at h
  exact Bool.false_ne_true h

/-! ## The last-match scan of `handle_input` -/

/-- When no territory contains the point, the enumerate-and-overwrite
scan returns its accumulator unchanged. -/
theorem foldl_sel_keep (p : Vec2) (ts : List Territory)
    (h : ∀ t ∈ ts, t.is_point_inside p = false) :
    ∀ (n : Nat) (a : Option Nat),
      (List.enumFrom n ts).foldl
        (fun acc it => if it.2.is_point_inside p then some it.1 else acc) a = a := by
  induction ts with
  | nil => intro n a; rfl
  | cons t tl ih =>
      intro n a
      have ht : t.is_point_inside p = false := h t (List.mem_cons_self t tl)
      simp only [List.enumFrom, List.foldl_cons, ht, Bool.false_eq_true, if_false]
      exact ih (fun u hu => h u (List.mem_cons_of_mem _ hu)) (n + 1) a

/-- When index `m` holds a containing territory and no later index
does, the scan returns `m` (shifted by the enumeration offset). -/
theorem foldl_sel_last (p : Vec2) :
    ∀ (ts : List Territory) (m : Nat) (tm : Territory), ts.get? m = some tm →
      tm.is_point_inside p = true →
      (∀ k t', m < k → ts.get? k = some t' → t'.is_point_inside p = false) →
      ∀ (n : Nat) (a : Option Nat),
        (List.enumFrom n ts).foldl
          (fun acc it => if it.2.is_point_inside p then some it.1 else acc) a = some (n + m) := by
  intro ts
  induction ts with
  | nil => intro m tm hget; exact absurd hget (by simp)
  | cons t tl ih =>
      intro m tm hget hin hlast n a
      cases m with
      | zero =>
          obtain rfl : t = tm := by simpa using hget
          simp only [List.enumFrom, List.foldl_cons, hin, if_true, Nat.add_zero]
          refine foldl_sel_keep p tl ?_ (n + 1) (some n)
          intro u hu
          obtain ⟨j, hj⟩ := List.mem_iff_get?.1 hu
          exact hlast (j + 1) u (Nat.succ_pos j) (by simpa using hj)
      | succ m' =>
          have hstep : (n + 1) + m' = n + (m' + 1) := by omega
          simp only [List.enumFrom, List.foldl_cons]
          rw [ih m' tm (by simpa using hget) hin
            (fun k t' hk hkget => hlast (k + 1) t' (by omega) (by simpa using hkget))
            (n + 1) _, hstep]

/-- Any index the scan returns is either the incoming accumulator or
within the enumerated range. -/
theorem foldl_sel_bound (p : Vec2) :
    ∀ (ts : List Territory) (n : Nat) (a : Option Nat) (i : Nat),
      (List.enumFrom n ts).foldl
        (fun acc it => if it.2.is_point_inside p then some it.1 else acc) a = some i →
      a = some i ∨ (n ≤ i ∧ i < n + ts.length) := by
  intro ts
  induction ts with
  | nil => intro n a i h; exact Or.inl h
  | cons t tl ih =>
      intro n a i h
      simp only [List.enumFrom, List.foldl_cons] at h
      rcases ih (n + 1) _ i h with hstep | hrange
      · by_cases hc : t.is_point_inside p = true
        · simp only [hc, if_true] at hstep
          have : n = i := by simpa using hstep
          right
          simp only [List.length_cons]
          omega
        · rw [Bool.not_eq_true] at hc
          simp only [hc, Bool.false_eq_true, if_false] at hstep
          exact Or.inl hstep
      · right
        simp only [List.length_cons]
        omega

/-- The scan result is none on a click hitting no territory. -/
theorem newlySelected_eq_none (ts : List Territory) (p : Vec2)
    (h : ∀ t ∈ ts, t.is_point_inside p = false) : newlySelected ts p = none :=
  foldl_sel_keep p ts h 0 none

/-- The scan returns the last (greatest) containing index. -/
theorem newlySelected_eq_some (ts : List Territory) (p : Vec2) (m : Nat) (tm : Territory)
    (hget : ts.get? m = some tm) (hin : tm.is_point_inside p = true)
    (hlast : ∀ k t', m < k → ts.get? k = some t' → t'.is_point_inside p = false) :
    newlySelected ts p = some m := by
  have := foldl_sel_last p ts m tm hget hin hlast 0 none
  rwa [Nat.zero_add] at this

/-- Any index `newlySelected` returns is in range. -/
theorem newlySelected_lt_length (ts : List Territory) (p : Vec2) (i : Nat)
    (h : newlySelected ts p = some i) : i < ts.length := by
  rcases foldl_sel_bound p ts 0 none i h with hnone | hrange
  · exact absurd hnone (by simp)
  · omega

/-! ## Invariant bookkeeping -/

/-- Unpacking `syncInvB` when an index is recorded: it is in range and
the flags are the indicator of that index (at every index, in range or
not). -/
theorem syncInv_some_flags (s : GameState) (i : Nat)
    (hs : syncInvB s = true) (hsel : s.selected_territory = some i) :
    i < s.territories.length ∧ ∀ k, flagAt s k = decide (k = i) := by
  unfold syncInvB at hs
  rw [hsel] at hs
  simp only [Bool.and_eq_true, decide_eq_true_eq, List.all_eq_true] at hs
  obtain ⟨hlt, hall⟩ := hs
  refine ⟨hlt, fun k => ?_⟩
  by_cases hk : k < s.territories.length
  · simpa using hall k (List.mem_range.2 hk)
  · have h1 : flagAt s k = false := by
      rw [flagAt, flagAtL, List.get?_eq_none.2 (Nat.le_of_not_lt hk)]
    have h2 : k ≠ i := fun he => hk (he ▸ hlt)
    rw [h1, decide_eq_false h2]

/-- Unpacking `syncInvB` when no index is recorded: every flag is
false. -/
theorem syncInv_none_flags (s : GameState)
    (hs : syncInvB s = true) (hsel : s.selected_territory = none) :
    ∀ k, flagAt s k = false := by
  unfold syncInvB at hs
  rw [hsel] at hs
  rw [List.all_eq_true] at hs
  intro k
  rw [flagAt, flagAtL]
  cases hg : s.territories.get? k with
  | none => rfl
  | some t =>
      have := hs t (List.get?_mem hg)
      simpa using this

/-- Packing `syncInvB` for a state literal with a recorded index. -/
theorem syncInv_intro (ts : List Territory) (i : Nat) (hlt : i < ts.length)
    (hk : ∀ k, k < ts.length → flagAtL ts k = decide (k = i)) :
    syncInvB ⟨ts, some i⟩ = true := by
  unfold syncInvB
  simp only [Bool.and_eq_true, decide_eq_true_eq, List.all_eq_true]
  refine ⟨hlt, fun k hkmem => ?_⟩
  have hkl := List.mem_range.1 hkmem
  have := hk k hkl
  rw [flagAt]
  simp only at this ⊢
  rw [this]
  exact beq_self_eq_true _

/-- Bool-to-Prop reading of `weakInvB`. -/
theorem weakInv_iff (s : GameState) :
    weakInvB s = true ↔
      ((∀ i, s.selected_territory = some i → i < s.territories.length) ∧
        ∀ k, flagAt s k = true → s.selected_territory = some k) := by
  rw [weakInvB, Bool.and_eq_true, List.all_eq_true]
  constructor
  · rintro ⟨h1, h2⟩
    constructor
    · intro i hi
      rw [hi] at h1
      simpa using h1
    · intro k hk
      have hlt : k < s.territories.length := flagAtL_true_lt _ _ hk
      have h3 := h2 k (List.mem_range.2 hlt)
      simp only at h3
      rw [hk] at h3
      simpa using h3
  · rintro ⟨h1, h2⟩
    constructor
    · cases hsel : s.selected_territory with
      | none => rfl
      | some i => simpa using h1 i hsel
    · intro k _
      cases hfk : flagAt s k with
      | false => rw [flagAt] at hfk; simp [hfk]
      | true => rw [flagAt] at hfk; simp [hfk, h2 k (by rw [flagAt]; exact hfk)]

/-- One `handle_input` call preserves the weak invariant. -/
theorem weakInv_preserved (s : GameState) (p : Vec2)
    (h : weakInvB s = true) : weakInvB (handle_input s p) = true := by
  obtain ⟨hrange, hflag⟩ := (weakInv_iff s).1 h
  rw [weakInv_iff]
  cases hnew : newlySelected s.territories p with
  | some i =>
      have hilt : i < s.territories.length := newlySelected_lt_length _ _ _ hnew
      cases hsel : s.selected_territory with
      | some old =>
          simp only [handle_input, hnew, hsel]
          constructor
          · intro j hj
            obtain rfl : j = i := by simpa using hj.symm
            rw [length_setSelectedAt, length_setSelectedAt]
            exact hilt
          · intro k hk
            rw [flagAt] at hk
            simp only at hk
            by_cases hki : k = i
            · rw [hki]
            · rw [flagAtL_setSelectedAt_ne _ _ _ _ hki] at hk
              by_cases hko : k = old
              · rw [hko, flagAtL_setSelectedAt_false] at hk
                exact absurd hk Bool.false_ne_true
              · rw [flagAtL_setSelectedAt_ne _ _ _ _ hko] at hk
                have := hflag k (by rw [flagAt]; exact hk)
                rw [hsel] at this
                exact absurd (by simpa using this.symm) hko
      | none =>
          simp only [handle_input, hnew, hsel]
          constructor
          · intro j hj
            obtain rfl : j = i := by simpa using hj.symm
            rw [length_setSelectedAt]
            exact hilt
          · intro k hk
            rw [flagAt] at hk
            simp only at hk
            by_cases hki : k = i
            · rw [hki]
            · rw [flagAtL_setSelectedAt_ne _ _ _ _ hki] at hk
              have := hflag k (by rw [flagAt]; exact hk)
              rw [hsel] at this
              exact absurd this (by simp)
  | none =>
      cases hsel : s.selected_territory with
      | none =>
          simp only [handle_input, hnew, hsel]
          constructor
          · intro j hj
            exact absurd (hsel ▸ hj : s.selected_territory = some j) (by rw [hsel]; simp)
          · intro k hk
            rw [flagAt] at hk
            simp only at hk
            have := hflag k (by rw [flagAt]; exact hk)
            rw [hsel] at this
            exact absurd this (by simp)
      | some old =>
          have holt : old < s.territories.length := hrange old hsel
          simp only [handle_input, hnew, hsel]
          constructor
          · intro j hj
            obtain rfl : j = old := by simpa using hj.symm
            rw [length_setSelectedAt]
            exact holt
          · intro k hk
            rw [flagAt] at hk
            simp only at hk
            by_cases hko : k = old
            · rw [hko]
            · rw [flagAtL_setSelectedAt_ne _ _ _ _ hko] at hk
              have := hflag k (by rw [flagAt]; exact hk)
              rw [hsel] at this
              exact absurd (by simpa using this.symm) hko

/-- Any sequence of `handle_input` calls preserves the weak invariant. -/
theorem weakInv_foldl (s : GameState) (ps : List Vec2)
    (h : weakInvB s = true) : weakInvB (ps.foldl handle_input s) = true := by
  induction ps generalizing s with
  | nil => exact h
  | cons p ps ih => exact ih (handle_input s p) (weakInv_preserved s p h)

/-- The synchronization invariant implies the weak one. -/
theorem syncInv_imp_weakInv (s : GameState)
    (h : syncInvB s = true) : weakInvB s = true := by
  rw [weakInv_iff]
  cases hsel : s.selected_territory with
  | none =>
      have hf := syncInv_none_flags s h hsel
      constructor
      · intro i hi
        exact absurd hi (by simp)
      · intro k hk
        rw [hf k] at hk
        exact absurd hk Bool.false_ne_true
  | some i =>
      obtain ⟨hlt, hks⟩ := syncInv_some_flags s i h hsel
      constructor
      · intro j hj
        obtain rfl : i = j := by simpa using hj
        exact hlt
      · intro k hk
        rw [hks k, decide_eq_true_eq] at hk
        rw [hk]

/-! ## Concrete evaluation helpers -/

/-- The square contains `(5, 5)` regardless of its flag. -/
theorem squareT_hit (sel : Bool) :
    (squareTerritory sel).is_point_inside ⟨5, 5⟩ = true := by
  norm_num [Territory.is_point_inside, squareTerritory, squareVertices, edgePairs,
    crossesRay, yStraddles]

/-- The square does not contain `(15, 5)` regardless of its flag. -/
theorem squareT_miss (sel : Bool) :
    (squareTerritory sel).is_point_inside ⟨15, 5⟩ = false := by
  norm_num [Territory.is_point_inside, squareTerritory, squareVertices, edgePairs,
    crossesRay, yStraddles]

/-- The shifted square contains the overlap point `(7, 5)`. -/
theorem squareTB_hit (sel : Bool) :
    (squareTerritoryB sel).is_point_inside ⟨7, 5⟩ = true := by
  norm_num [Territory.is_point_inside, squareTerritoryB, edgePairs,
    crossesRay, yStraddles]

/-- Every territory of the selected-square state misses `(15, 5)`. -/
theorem sSel_miss : ∀ t ∈ sSel.territories, t.is_point_inside ⟨15, 5⟩ = false := by
  intro t ht
  have : t = squareTerritory true := by simpa [sSel] using ht
  rw [this]
  exact squareT_miss true

/-- Vacuous last-match side condition: there is no index beyond the
list at all. -/
theorem no_later_ge_length (ts : List Territory) (p : Vec2) (m : Nat)
    (hm : ts.length ≤ m + 1) :
    ∀ k t', m < k → ts.get? k = some t' → t'.is_point_inside p = false := by
  intro k t' hk hg
  rw [List.get?_eq_none.2 (by omega)] at hg
  exact absurd hg (by simp)

/-! ## Click resolution: the claims about `handle_input` -/

/-- C1 counterexample: from the synchronized state with the square
selected, a click at `(15, 5)` (inside no territory) leaves
`selected_territory` still pointing at index 0 — it is not reset to
none as the claim states. -/
theorem click_empty_keeps_index_counterexample :
    sSel.selected_territory = some 0 ∧ flagAt sSel 0 = true ∧ syncInvB sSel = true ∧
      sSel.territories.all (fun t => !(t.is_point_inside ⟨15, 5⟩)) = true ∧
      (handle_input sSel ⟨15, 5⟩).selected_territory = some 0 := by
  have hall : sSel.territories.all (fun t => !(t.is_point_inside ⟨15, 5⟩)) = true := by
    rw [List.all_eq_true]
    intro t ht
    rw [sSel_miss t ht]
    rfl
  refine ⟨rfl, by decide, by decide, hall, ?_⟩
  rw [handle_input, newlySelected_eq_none _ _ sSel_miss]
  rfl

/-- C1 amended: from any synchronized state with a selected territory,
a click inside no territory clears every selected flag, but leaves
`selected_territory` unchanged (still the old index) instead of
resetting it to none. -/
theorem click_empty_clears_flags_keeps_index (s : GameState) (i : Nat) (p : Vec2)
    (hs : syncInvB s = true) (hsel : s.selected_territory = some i)
    (hmiss : ∀ t ∈ s.territories, t.is_point_inside p = false) :
    (∀ t ∈ (handle_input s p).territories, t.selected = false) ∧
      (handle_input s p).selected_territory = some i := by
  have hnew := newlySelected_eq_none s.territories p hmiss
  obtain ⟨hlt, hks⟩ := syncInv_some_flags s i hs hsel
  simp only [handle_input, hnew, hsel]
  refine ⟨?_, by trivial⟩
  intro t ht
  obtain ⟨k, hk⟩ := List.mem_iff_get?.1 ht
  by_cases hki : k = i
  · subst hki
    rw [get?_setSelectedAt_self] at hk
    cases hg : s.territories.get? k with
    | none => rw [hg] at hk; exact absurd hk (by simp)
    | some u =>
        rw [hg] at hk
        have : t = { u with selected := false } := by simpa using hk.symm
        rw [this]
  · rw [get?_setSelectedAt_ne _ _ _ _ hki] at hk
    have := hks k
    rw [flagAt, flagAtL, hk, decide_eq_false hki] at this
    exact this

/-- Witness for `click_empty_clears_flags_keeps_index` on the concrete
selected-square state. -/
theorem click_empty_clears_flags_keeps_index_witness :
    (∀ t ∈ (handle_input sSel ⟨15, 5⟩).territories, t.selected = false) ∧
      (handle_input sSel ⟨15, 5⟩).selected_territory = some 0 :=
  click_empty_clears_flags_keeps_index sSel 0 ⟨15, 5⟩ (by decide) rfl sSel_miss

/-- C2 counterexample: the synchronization invariant holds in the
selected-square state but is broken by the one-click sequence hitting
empty space — afterwards `selected_territory` references a territory
whose flag is false. -/
theorem sync_inv_not_preserved_counterexample :
    syncInvB sSel = true ∧
      syncInvB (List.foldl handle_input sSel [⟨15, 5⟩]) = false := by
  refine ⟨by decide, ?_⟩
  rw [List.foldl_cons, List.foldl_nil, handle_input,
    newlySelected_eq_none _ _ sSel_miss]
  decide

/-- C2 amended: from any state satisfying the synchronization
invariant, every sequence of `handle_input` calls preserves the weak
invariant — `selected_territory` none or in range, at most one flag
set, and any set flag exactly at the recorded index; the recorded
index may, however, point at a territory whose flag is false. -/
theorem weak_inv_after_any_clicks (s : GameState) (ps : List Vec2)
    (h : syncInvB s = true) : weakInvB (ps.foldl handle_input s) = true :=
  weakInv_foldl s ps (syncInv_imp_weakInv s h)

/-- Witness for `weak_inv_after_any_clicks` on the concrete state and
the empty-space click. -/
theorem weak_inv_after_any_clicks_witness :
    weakInvB (List.foldl handle_input sSel [⟨15, 5⟩]) = true :=
  weak_inv_after_any_clicks sSel [⟨15, 5⟩] (by decide)

/-- C3: from any synchronized state, a click whose last containing
territory (greatest index among hits) is `m` selects exactly that
territory: its flag is set, every other flag is false, and
`selected_territory` records `m`. -/
theorem click_selects_last_match (s : GameState) (p : Vec2) (m : Nat) (tm : Territory)
    (hs : syncInvB s = true)
    (hget : s.territories.get? m = some tm) (hin : tm.is_point_inside p = true)
    (hlast : ∀ k t', m < k → s.territories.get? k = some t' →
      t'.is_point_inside p = false) :
    (handle_input s p).selected_territory = some m ∧
      syncInvB (handle_input s p) = true := by
  have hnew := newlySelected_eq_some s.territories p m tm hget hin hlast
  have hmlt : m < s.territories.length := by
    by_contra hm
    rw [List.get?_eq_none.2 (Nat.le_of_not_lt hm)] at hget
    exact absurd hget (by simp)
  cases hsel : s.selected_territory with
  | some old =>
      obtain ⟨holt, hks⟩ := syncInv_some_flags s old hs hsel
      simp only [handle_input, hnew, hsel]
      refine ⟨by trivial, ?_⟩
      refine syncInv_intro _ m (by rw [length_setSelectedAt, length_setSelectedAt]; exact hmlt) ?_
      intro k hk
      rw [length_setSelectedAt, length_setSelectedAt] at hk
      by_cases hkm : k = m
      · subst hkm
        rw [flagAtL_setSelectedAt_self _ _ _ (by rw [length_setSelectedAt]; exact hmlt)]
        simp
      · rw [flagAtL_setSelectedAt_ne _ _ _ _ hkm, decide_eq_false hkm]
        by_cases hko : k = old
        · subst hko
          exact flagAtL_setSelectedAt_false _ _
        · rw [flagAtL_setSelectedAt_ne _ _ _ _ hko]
          have := hks k
          rw [flagAt, decide_eq_false hko] at this
          exact this
  | none =>
      have hflags := syncInv_none_flags s hs hsel
      simp only [handle_input, hnew, hsel]
      refine ⟨by trivial, ?_⟩
      refine syncInv_intro _ m (by rw [length_setSelectedAt]; exact hmlt) ?_
      intro k hk
      by_cases hkm : k = m
      · subst hkm
        rw [flagAtL_setSelectedAt_self _ _ _ hmlt]
        simp
      · rw [flagAtL_setSelectedAt_ne _ _ _ _ hkm, decide_eq_false hkm]
        have := hflags k
        rw [flagAt] at this
        exact this

/-- Witness for `click_selects_last_match`: two overlapping squares,
a click at `(7, 5)` inside both, the later-indexed one (index 1) wins. -/
theorem click_selects_last_match_witness :
    (handle_input sTwo ⟨7, 5⟩).selected_territory = some 1 ∧
      syncInvB (handle_input sTwo ⟨7, 5⟩) = true :=
  click_selects_last_match sTwo ⟨7, 5⟩ 1 (squareTerritoryB false)
    (by decide) rfl (squareTB_hit false)
    (no_later_ge_length sTwo.territories ⟨7, 5⟩ 1 (by decide))

/-- C6: from a synchronized state with territory `i` selected, a click
whose last containing territory is `i` itself leaves the whole state
unchanged — re-selecting the selected territory is a no-op. -/
theorem reselect_same_is_noop (s : GameState) (p : Vec2) (i : Nat) (ti : Territory)
    (hs : syncInvB s = true) (hsel : s.selected_territory = some i)
    (hget : s.territories.get? i = some ti) (hin : ti.is_point_inside p = true)
    (hlast : ∀ k t', i < k → s.territories.get? k = some t' →
      t'.is_point_inside p = false) :
    handle_input s p = s := by
  have hnew := newlySelected_eq_some s.territories p i ti hget hin hlast
  obtain ⟨hlt, hks⟩ := syncInv_some_flags s i hs hsel
  have hti : ti.selected = true := by
    have h1 := hks i
    rw [flagAt, flagAtL, hget] at h1
    simpa using h1
  obtain ⟨ts, sel⟩ := s
  simp only at hsel
  subst hsel
  simp only [handle_input, hnew]
  rw [setSelectedAt_setSelectedAt, setSelectedAt_eq_self ts i ti true hget hti]

/-- Witness for `reselect_same_is_noop`: clicking the selected square
again at `(5, 5)` changes nothing. -/
theorem reselect_same_is_noop_witness : handle_input sSel ⟨5, 5⟩ = sSel :=
  reselect_same_is_noop sSel ⟨5, 5⟩ 0 (squareTerritory true)
    (by decide) rfl rfl (squareT_hit true)
    (no_later_ge_length sSel.territories ⟨5, 5⟩ 0 (by decide))

/-- C10: construction copies each loaded record's `selected` flag and
always starts with `selected_territory = none`; on `dataBad` (one
record already flagged) the initial state therefore violates the
synchronization invariant; and `handle_input` never clears a flag at
an index other than the recorded one, so the stray flag survives any
click while `selected_territory` does not point at it. -/
theorem construction_desync :
    (∀ data : List TerritoryData,
        (GameState.new data).selected_territory = none ∧
          (GameState.new data).territories.map (fun t => t.selected)
            = data.map (fun d => d.selected)) ∧
      syncInvB (GameState.new dataBad) = false ∧
      (∀ (s : GameState) (p : Vec2) (k : Nat),
        s.selected_territory ≠ some k → flagAt s k = true →
          flagAt (handle_input s p) k = true) := by
  refine ⟨?_, by decide, ?_⟩
  · intro data
    refine ⟨rfl, ?_⟩
    rw [GameState.new]
    simp only [List.map_map]
    rfl
  · intro s p k hne hk
    rw [flagAt] at hk
    cases hnew : newlySelected s.territories p with
    | some i =>
        have hlt : i < s.territories.length := newlySelected_lt_length _ _ _ hnew
        cases hsel : s.selected_territory with
        | none =>
            simp only [handle_input, hnew, hsel, flagAt]
            by_cases hki : k = i
            · subst hki
              rw [flagAtL_setSelectedAt_self _ _ _ hlt]
            · rw [flagAtL_setSelectedAt_ne _ _ _ _ hki]
              exact hk
        | some old =>
            have hko : k ≠ old := fun he => hne (by rw [hsel, he])
            simp only [handle_input, hnew, hsel, flagAt]
            by_cases hki : k = i
            · subst hki
              rw [flagAtL_setSelectedAt_self _ _ _ (by rw [length_setSelectedAt]; exact hlt)]
            · rw [flagAtL_setSelectedAt_ne _ _ _ _ hki,
                flagAtL_setSelectedAt_ne _ _ _ _ hko]
              exact hk
    | none =>
        cases hsel : s.selected_territory with
        | none =>
            simp only [handle_input, hnew, hsel, flagAt]
            exact hk
        | some old =>
            have hko : k ≠ old := fun he => hne (by rw [hsel, he])
            simp only [handle_input, hnew, hsel, flagAt]
            rw [flagAtL_setSelectedAt_ne _ _ _ _ hko]
            exact hk

/-- Witness for the universally quantified part of
`construction_desync`: the stray flag of `GameState.new dataBad`
survives a click at `(100, 100)`. -/
theorem construction_desync_witness :
    flagAt (handle_input (GameState.new dataBad) ⟨100, 100⟩) 0 = true :=
  construction_desync.2.2 (GameState.new dataBad) ⟨100, 100⟩ 0 (by decide) (by decide)

/-! ## Reversal invariance of the hit test -/

/-- A fold of conditional toggles computes the parity of the number of
matching elements. -/
theorem foldl_toggle {α : Type} (c : α → Bool) :
    ∀ (l : List α) (b : Bool),
      l.foldl (fun x e => if c e then !x else x) b
        = Bool.xor b (decide (l.countP c % 2 = 1)) := by
  intro l
  induction l with
  | nil => intro b; simp
  | cons a l ih =>
      intro b
      rw [List.foldl_cons, ih, List.countP_cons]
      by_cases hc : c a = true
      · have hpar : decide ((l.countP c + 1) % 2 = 1)
            = !decide (l.countP c % 2 = 1) := by
          rcases Nat.mod_two_eq_zero_or_one (l.countP c) with h | h <;>
            simp [Nat.add_mod, h]
        simp only [hc, if_true]
        rw [hpar]
        cases b <;> cases hd : decide (l.countP c % 2 = 1) <;> rfl
      · rw [Bool.not_eq_true] at hc
        simp only [hc, Bool.false_eq_true, if_false, Nat.add_zero]

/-- The hit test is the parity of the crossing count over the loop's
edge pairs. -/
theorem is_point_inside_parity (t : Territory) (p : Vec2) :
    t.is_point_inside p
      = decide ((edgePairs t.vertices).countP (fun e => crossesRay p e.1 e.2) % 2 = 1) := by
  rw [Territory.is_point_inside, foldl_toggle, Bool.false_xor]

/-- The crossing test does not care which endpoint of an edge is
listed first. -/
theorem crossesRay_swap (p a b : Vec2) :
    crossesRay p a b = crossesRay p b a := by
  by_cases h : a.y = b.y
  · rw [crossesRay, crossesRay, yStraddles, yStraddles, h, bne_self_eq_false,
      Bool.false_and, Bool.false_and]
  · have hbne : ∀ x y : Bool, (x != y) = (y != x) := by decide
    have heq := crossFormula_swap p a b h
    rw [crossesRay, crossesRay]
    congr 1
    · rw [yStraddles, yStraddles]
      exact hbne _ _
    · simp only [heq]

/-- Appending one element extends the adjacent pairs by the closing
pair from the old last element. -/
theorem adjPairs_append_singleton {α : Type} (d : α) :
    ∀ (l : List α) (a : α), l ≠ [] →
      adjPairs (l ++ [a]) = adjPairs l ++ [(l.getLastD d, a)] := by
  intro l
  induction l with
  | nil => intro a h; exact absurd rfl h
  | cons x xs ih =>
      intro a _
      cases xs with
      | nil => rfl
      | cons y ys =>
          have h2 := ih a (by simp)
          show (x, y) :: adjPairs (y :: ys ++ [a])
            = ((x, y) :: adjPairs (y :: ys)) ++ [((x :: y :: ys).getLastD d, a)]
          rw [List.getLastD_eq_getLast?, List.getLast?_cons_cons,
            ← List.getLastD_eq_getLast?, List.cons_append]
          rw [List.cons_append] at h2
          rw [h2, List.cons_append]

/-- Adjacent pairs of the reversal are the swapped adjacent pairs, in
reverse order. -/
theorem adjPairs_reverse {α : Type} :
    ∀ l : List α, adjPairs l.reverse = ((adjPairs l).map Prod.swap).reverse := by
  intro l
  induction l with
  | nil => rfl
  | cons x xs ih =>
      cases xs with
      | nil => rfl
      | cons y ys =>
          rw [List.reverse_cons,
            adjPairs_append_singleton x (List.reverse (y :: ys)) x (by simp), ih]
          have hlast : (List.reverse (y :: ys)).getLastD x = y := by
            rw [List.getLastD_eq_getLast?, List.getLast?_reverse]
            rfl
          rw [hlast]
          show _ = ((y, x) :: (adjPairs (y :: ys)).map Prod.swap).reverse
          rw [List.reverse_cons]

/-- The loop's edge pairs of a nonempty vertex list: the wrap-around
pair first, then the swapped adjacent pairs. -/
theorem edgePairs_eq_of_ne_nil (vs : List Vec2) (h : vs ≠ []) :
    edgePairs vs
      = (vs.headD ⟨0, 0⟩, vs.getLastD ⟨0, 0⟩) :: (adjPairs vs).map Prod.swap := by
  cases vs with
  | nil => exact absurd rfl h
  | cons v tl =>
      rw [edgePairs, List.zip_cons_cons]
      congr 1
      rw [adjPairs, List.tail_cons, List.zip_swap]

/-- The edge pairs of the reversed vertex list are a permutation of
the swapped edge pairs of the original. -/
theorem edgePairs_reverse_perm (vs : List Vec2) (h : vs ≠ []) :
    (edgePairs vs.reverse).Perm ((edgePairs vs).map Prod.swap) := by
  rw [edgePairs_eq_of_ne_nil vs.reverse (by simp [h]), edgePairs_eq_of_ne_nil vs h]
  simp only [List.headD_eq_head?, List.getLastD_eq_getLast?, List.head?_reverse,
    List.getLast?_reverse]
  rw [adjPairs_reverse, List.map_reverse, List.map_map, Prod.swap_swap_eq, List.map_id]
  rw [List.map_cons, Prod.swap_prod_mk, List.map_map, Prod.swap_swap_eq, List.map_id]
  exact List.Perm.cons _ (List.reverse_perm _)

/-- C5: reversing the vertex list (flipping the winding direction)
does not change the hit test's verdict, under exact arithmetic. -/
theorem is_point_inside_reverse (t : Territory) (p : Vec2)
    (h : 3 ≤ t.vertices.length) :
    Territory.is_point_inside { t with vertices := t.vertices.reverse } p
      = t.is_point_inside p := by
  have hne : t.vertices ≠ [] := by
    intro he
    rw [he] at h
    simp at h
  rw [is_point_inside_parity, is_point_inside_parity]
  simp only
  have hcount := (edgePairs_reverse_perm t.vertices hne).countP_eq
    (fun e => crossesRay p e.1 e.2)
  have hc : ((edgePairs t.vertices).map Prod.swap).countP (fun e => crossesRay p e.1 e.2)
      = (edgePairs t.vertices).countP (fun e => crossesRay p e.1 e.2) := by
    rw [List.countP_map]
    congr 1
    funext e
    show crossesRay p e.2 e.1 = crossesRay p e.1 e.2
    exact (crossesRay_swap p e.1 e.2).symm
  rw [hcount, hc]

/-- Witness for `is_point_inside_reverse` on the square and the inner
point `(5, 5)`. -/
theorem is_point_inside_reverse_witness :
    Territory.is_point_inside
        { squareTerritory false with vertices := (squareTerritory false).vertices.reverse }
        ⟨5, 5⟩
      = (squareTerritory false).is_point_inside ⟨5, 5⟩ :=
  is_point_inside_reverse (squareTerritory false) ⟨5, 5⟩ (by decide)
